import Mathlib

set_option maxRecDepth 8000

/-!
Verification development for the API-change detection core of the
code-read MCP server (`src/index.ts`).

The two core functions, `detectApiChanges` (lines 118-170) and
`extractApiEndpoints` (lines 172-216), work by applying JavaScript regular
expressions to lines of text.  We embed the fragment of JavaScript regex
semantics those functions actually use: literal runs, character classes
(`\s`, `\w`, `\d`, `[...]`, `[^...]`, `.`), greedy/lazy quantifiers over a
class atom, and (optionally capturing) groups over alternations, with
case-insensitive matching for the `i` flag, unanchored search for `test`,
and a leftmost, non-overlapping global scan for `matchAll`.  The engine is
a backtracking matcher returning candidate continuations in the order a
JavaScript engine explores them, so the first candidate is the JavaScript
match.
-/

/-- Character classes of the embedded regex fragment.  `any` is `.`
(which in JavaScript matches everything except line terminators),
`space` is `\s`, `word` is `\w`, `digit` is `\d`. -/
inductive CClass where
  | any
  | space
  | word
  | digit
  | oneOf (cs : List Char)
  | noneOf (cs : List Char)

/-- Whether a character belongs to a class (ASCII inputs). -/
def CClass.test : CClass → Char → Bool
  | .any, c => c != '\n' && c != '\r'
  | .space, c => c = ' ' || c = '\t' || c = '\n' || c = '\r' || c = '\x0b' || c = '\x0c'
  | .word, c => c.isAlphanum || c = '_'
  | .digit, c => c.isDigit
  | .oneOf cs, c => cs.contains c
  | .noneOf cs, c => !(cs.contains c)

/-- One term of a regex: a literal run, a single class atom, a greedy or
lazy quantifier over a class atom, or a group (capturing when `idx` is
`some`) over an alternation of sequences.  `gopt` is `(...)?`; `rep` is a
braced quantifier `{m}` / `{m,}` / `{m,n}` over a class atom (`hi = none`
for an unbounded `{m,}`), `lazyRep` its lazy form. -/
inductive RTerm where
  | lit (s : List Char)
  | one (cl : CClass)
  | star (cl : CClass)
  | plus (cl : CClass)
  | opt (cl : CClass)
  | lazyStar (cl : CClass)
  | lazyPlus (cl : CClass)
  | lazyOpt (cl : CClass)
  | rep (cl : CClass) (lo : Nat) (hi : Option Nat)
  | lazyRep (cl : CClass) (lo : Nat) (hi : Option Nat)
  | grp (idx : Option Nat) (alts : List (List RTerm))
  | gopt (idx : Option Nat) (alts : List (List RTerm))

/-- Captured groups: group number paired with captured characters.  The
most recent capture of a group is first. -/
abbrev Caps := List (Nat × List Char)

def addCap (idx : Option Nat) (captured : List Char) (caps : Caps) : Caps :=
  match idx with
  | none => caps
  | some n => (n, captured) :: caps

def getCap (caps : Caps) (n : Nat) : Option (List Char) :=
  (caps.find? (fun pr => pr.1 = n)).map (·.2)

/-- Character comparison honouring the `i` flag. -/
def charEqCI (ci : Bool) (a b : Char) : Bool :=
  if ci then a.toLower = b.toLower else a = b

/-- Match a literal run against a prefix of the input, returning the rest. -/
def litChomp (ci : Bool) : List Char → List Char → Option (List Char)
  | [], s => some s
  | _ :: _, [] => none
  | a :: l, c :: s => if charEqCI ci a c then litChomp ci l s else none

/-- Length of the maximal prefix run of characters in a class. -/
def runLen (cl : CClass) : List Char → Nat
  | [] => 0
  | c :: s => if cl.test c then runLen cl s + 1 else 0

/-- Remaining inputs after consuming `k` characters for `k = n, …, lo`
(the greedy exploration order of a quantifier). -/
def greedyRests (s : List Char) (lo n : Nat) : List (List Char) :=
  if lo > n then [] else (List.range (n + 1 - lo)).map (fun j => s.drop (n - j))

/-- Remaining inputs after consuming `k` characters for `k = lo, …, n`
(the lazy exploration order). -/
def lazyRests (s : List Char) (lo n : Nat) : List (List Char) :=
  if lo > n then [] else (List.range (n + 1 - lo)).map (fun j => s.drop (lo + j))

mutual

/-- All ways a sequence of terms can match a prefix of `s`, as
`(captures, rest)` pairs in backtracking priority order.  The head of the
returned list is the match a JavaScript engine produces. -/
def seqCands (ci : Bool) : Nat → List RTerm → List Char → Caps → List (Caps × List Char)
  | 0, _, _, _ => []
  | _ + 1, [], s, caps => [(caps, s)]
  | fuel + 1, t :: ts, s, caps =>
    (termCands ci fuel t s caps).flatMap fun pr => seqCands ci fuel ts pr.2 pr.1

/-- All ways a single term can match a prefix of `s`, in priority order. -/
def termCands (ci : Bool) : Nat → RTerm → List Char → Caps → List (Caps × List Char)
  | 0, _, _, _ => []
  | fuel + 1, t, s, caps =>
    match t with
    | .lit l =>
      match litChomp ci l s with
      | some rest => [(caps, rest)]
      | none => []
    | .one cl =>
      match s with
      | c :: rest => if cl.test c then [(caps, rest)] else []
      | [] => []
    | .star cl => (greedyRests s 0 (runLen cl s)).map (fun r => (caps, r))
    | .plus cl => (greedyRests s 1 (runLen cl s)).map (fun r => (caps, r))
    | .opt cl =>
      (match s with
       | c :: rest => if cl.test c then [(caps, rest)] else []
       | [] => []) ++ [(caps, s)]
    | .lazyStar cl => (lazyRests s 0 (runLen cl s)).map (fun r => (caps, r))
    | .lazyPlus cl => (lazyRests s 1 (runLen cl s)).map (fun r => (caps, r))
    | .rep cl lo hi =>
      (greedyRests s lo (match hi with | none => runLen cl s | some h => min h (runLen cl s))).map
        (fun r => (caps, r))
    | .lazyRep cl lo hi =>
      (lazyRests s lo (match hi with | none => runLen cl s | some h => min h (runLen cl s))).map
        (fun r => (caps, r))
    | .lazyOpt cl =>
      (caps, s) :: (match s with
       | c :: rest => if cl.test c then [(caps, rest)] else []
       | [] => [])
    | .grp idx alts =>
      alts.flatMap fun alt =>
        (seqCands ci fuel alt s caps).map fun pr =>
          (addCap idx (s.take (s.length - pr.2.length)) pr.1, pr.2)
    | .gopt idx alts =>
      (alts.flatMap fun alt =>
        (seqCands ci fuel alt s caps).map fun pr =>
          (addCap idx (s.take (s.length - pr.2.length)) pr.1, pr.2)) ++ [(caps, s)]

end

/-- Fuel ample for every regex in this file (recursion depth is bounded by
the structural size of the regex, never by the input length). -/
def matchFuel (re : List RTerm) (s : List Char) : Nat :=
  100 + re.length + s.length

/-- Does the regex match starting exactly at the current position? -/
def hasMatch (ci : Bool) (re : List RTerm) (s : List Char) : Bool :=
  !(seqCands ci (matchFuel re s) re s []).isEmpty

/-- `regex.test(s)`: unanchored search at every start position. -/
def searchTest (ci : Bool) (re : List RTerm) : List Char → Bool
  | [] => hasMatch ci re []
  | c :: t => hasMatch ci re (c :: t) || searchTest ci re t

/-- First (leftmost, then priority-ordered) match candidate at the current
position. -/
def firstCand (ci : Bool) (re : List RTerm) (s : List Char) : Option (Caps × List Char) :=
  (seqCands ci (matchFuel re s) re s []).head?

/-- Leftmost match in `s`: its captures, its length, and the input
remaining after it. -/
def leftmost (ci : Bool) (re : List RTerm) : List Char → Option (Caps × Nat × List Char)
  | [] => (firstCand ci re []).map (fun pr => (pr.1, 0, pr.2))
  | c :: t =>
    match firstCand ci re (c :: t) with
    | some pr => some (pr.1, (c :: t).length - pr.2.length, pr.2)
    | none => leftmost ci re t

/-- `s.matchAll(regex)` for a global regex: leftmost, non-overlapping
matches scanned left to right; an empty match advances by one. -/
def matchAllCaps (ci : Bool) (re : List RTerm) : Nat → List Char → List Caps
  | 0, _ => []
  | fuel + 1, s =>
    match leftmost ci re s with
    | none => []
    | some (caps, len, rest) =>
      if len = 0 then
        caps :: (match rest with
          | [] => []
          | _ :: t => matchAllCaps ci re fuel t)
      else caps :: matchAllCaps ci re fuel rest

/-! ### Parsing glob-translated patterns into the regex fragment

`detectApiChanges` builds `new RegExp(pattern.replace(/\*/g, ".*"))` from
each configured path pattern.  The `RegExp` constructor throws on invalid
syntax; we model compilation as an `Option`, with `none` standing for the
thrown `SyntaxError`.  The parser covers the constructs reachable from
glob-translated patterns (literals, `.`, quantifiers, escapes, character
classes) and is conservative (fails) on the rest. -/

/-- Items of a `[...]` class, expanding `a-b` ranges; `none` models the
`SyntaxError` of an unterminated class or an out-of-order range. -/
def parseClassItems : Nat → List Char → List Char → Option (List Char × List Char)
  | 0, _, _ => none
  | _ + 1, acc, ']' :: rest => some (acc.reverse, rest)
  | fuel + 1, acc, a :: '-' :: b :: rest =>
    if b = ']' then parseClassItems fuel ('-' :: a :: acc) (b :: rest)
    else if a.toNat ≤ b.toNat then
      parseClassItems fuel
        (((List.range (b.toNat - a.toNat + 1)).map (fun i => Char.ofNat (a.toNat + i))).reverse ++ acc)
        rest
    else none
  | fuel + 1, acc, a :: rest => parseClassItems fuel (a :: acc) rest
  | _, _, [] => none

def parseClass (fuel : Nat) (cs : List Char) : Option (CClass × List Char) :=
  match cs with
  | '^' :: rest => (parseClassItems fuel [] rest).map (fun pr => (CClass.noneOf pr.1, pr.2))
  | rest => (parseClassItems fuel [] rest).map (fun pr => (CClass.oneOf pr.1, pr.2))

/-- Class denoted by an escape: `\s`, `\w`, `\d` are classes, any other
escaped character is that literal character. -/
def escClass (e : Char) : CClass :=
  if e = 's' then .space
  else if e = 'w' then .word
  else if e = 'd' then .digit
  else .oneOf [e]

/-- A nonempty run of decimal digits and its value. -/
def takeDigits (cs : List Char) : Option (Nat × List Char) :=
  if (cs.takeWhile Char.isDigit).isEmpty then none
  else some ((cs.takeWhile Char.isDigit).foldl (fun n c => n * 10 + (c.toNat - 48)) 0,
    cs.dropWhile Char.isDigit)

/-- Recognise a braced-quantifier-shaped sequence `{m}`, `{m,}` or
`{m,n}` (input starts after the `{`), returning `(m, high bound, rest)`;
`none` means the text is not quantifier-shaped, in which case JavaScript
(Annex B) treats the `{` as a literal character. -/
def parseBracedQuant (cs : List Char) : Option (Nat × Option Nat × List Char) :=
  match takeDigits cs with
  | none => none
  | some (m, rest) =>
    match rest with
    | '}' :: rest2 => some (m, some m, rest2)
    | ',' :: '}' :: rest2 => some (m, none, rest2)
    | ',' :: rest2 =>
      match takeDigits rest2 with
      | none => none
      | some (n, rest3) =>
        match rest3 with
        | '}' :: rest4 => some (m, some n, rest4)
        | _ => none
    | _ => none

def parseGo : Nat → List Char → List RTerm → Option (List RTerm)
  | 0, _, _ => none
  | _ + 1, [], acc => some acc.reverse
  | fuel + 1, c :: rest, acc =>
    if c = '.' then parseGo fuel rest (.one .any :: acc)
    else if c = '*' || c = '+' || c = '?' then
      match acc with
      | .one cl :: acc2 =>
        parseGo fuel rest
          ((if c = '*' then RTerm.star cl else if c = '+' then RTerm.plus cl else RTerm.opt cl) :: acc2)
      | .star cl :: acc2 => if c = '?' then parseGo fuel rest (.lazyStar cl :: acc2) else none
      | .plus cl :: acc2 => if c = '?' then parseGo fuel rest (.lazyPlus cl :: acc2) else none
      | .opt cl :: acc2 => if c = '?' then parseGo fuel rest (.lazyOpt cl :: acc2) else none
      | .rep cl lo hi :: acc2 =>
        if c = '?' then parseGo fuel rest (.lazyRep cl lo hi :: acc2) else none
      | _ => none
    else if c = '\\' then
      match rest with
      | [] => none
      | e :: rest2 => parseGo fuel rest2 (.one (escClass e) :: acc)
    else if c = '[' then
      match parseClass fuel rest with
      | none => none
      | some (cl, rest2) => parseGo fuel rest2 (.one cl :: acc)
    else if c = '{' then
      match parseBracedQuant rest with
      | none => parseGo fuel rest (.one (.oneOf ['{']) :: acc)
      | some (lo, hi, rest2) =>
        match acc with
        | .one cl :: acc2 =>
          match hi with
          | some h => if h < lo then none else parseGo fuel rest2 (.rep cl lo hi :: acc2)
          | none => parseGo fuel rest2 (.rep cl lo hi :: acc2)
        | _ => none
    else if c = '(' || c = ')' || c = '|' || c = '^' || c = '$' then none
    else parseGo fuel rest (.one (.oneOf [c]) :: acc)

/-- Compile a regex source string; `none` models a thrown `SyntaxError`. -/
def parseRegexString (s : String) : Option (List RTerm) :=
  parseGo (s.length + 1) s.toList []

/-! ### String helpers

Executable embeddings of the JavaScript string operations the source
uses, written over `List Char` so that every theorem below evaluates by
kernel reduction. -/

/-- `pattern.replace(/\*/g, ".*")` (line 130 / line 898 of the source). -/
def globTranslateChars : List Char → List Char
  | [] => []
  | '*' :: rest => '.' :: '*' :: globTranslateChars rest
  | c :: rest => c :: globTranslateChars rest

def globTranslate (pattern : String) : String :=
  String.mk (globTranslateChars pattern.toList)

/-- `new RegExp(pattern.replace(/\*/g, ".*"))`. -/
def compileGlob (pattern : String) : Option (List RTerm) :=
  parseRegexString (globTranslate pattern)

/-- `new RegExp(pattern.replace(/\*/g, ".*")).test(path)`; `none` models
the constructor throwing on an invalid pattern. -/
def patternTest (pattern path : String) : Option Bool :=
  (compileGlob pattern).map (fun re => searchTest false re path.toList)

/-- `content.split("\n")` over characters. -/
def splitLinesChars : List Char → List (List Char)
  | [] => [[]]
  | '\n' :: rest => [] :: splitLinesChars rest
  | c :: rest =>
    match splitLinesChars rest with
    | [] => [[c]]
    | l :: ls => (c :: l) :: ls

/-- `content.split("\n")`. -/
def splitLines (s : String) : List String :=
  (splitLinesChars s.toList).map String.mk

def isWsJS (c : Char) : Bool :=
  c = ' ' || c = '\t' || c = '\n' || c = '\r' || c = '\x0b' || c = '\x0c'

/-- `line.trim()` (ASCII whitespace). -/
def trimStr (s : String) : String :=
  String.mk (((s.toList.dropWhile isWsJS).reverse.dropWhile isWsJS).reverse)

/-- `s.toUpperCase()` (ASCII). -/
def upperStr (s : String) : String :=
  String.mk (s.toList.map Char.toUpper)

/-! ### The route signature tables

Direct transcriptions of the regex literals in the source.  The backtick
quote character is written `Char.ofNat 96`. -/

def litS (s : String) : RTerm := .lit s.toList

def altWords (ws : List String) : List (List RTerm) := ws.map (fun w => [litS w])

def verbsLower : List (List RTerm) := altWords ["get", "post", "put", "delete", "patch"]

def verbsCap : List (List RTerm) := altWords ["Get", "Post", "Put", "Delete", "Patch"]

def verbsUpper : List (List RTerm) := altWords ["GET", "POST", "PUT", "DELETE", "PATCH"]

def backquote : Char := Char.ofNat 96

def quoteCls : CClass := .oneOf ['\'', '"', backquote]

def notQuote : CClass := .noneOf ['\'', '"', backquote]

def notQuoteParen : CClass := .noneOf ['\'', '"', backquote, ')']

/-- The `routePatterns` array of `detectApiChanges` (source lines 144-152),
in order:
`/(@(Get|Post|Put|Delete|Patch|RequestMapping))/i`,
`/app\.(get|post|put|delete|patch)\s*\(/i`,
`/router\.(get|post|put|delete|patch)\s*\(/i`,
`/@(api_view|action)\s*\(/i`,
`/def\s+(get|post|put|delete|patch)\s*\(/i`,
`/func\s+\(.*\)\s+(Get|Post|Put|Delete|Patch)/i`,
`/\[Http(Get|Post|Put|Delete|Patch)\]/i`.
All carry the `i` flag and are used via `.test` only. -/
def routePatterns : List (List RTerm) :=
  [ [.grp (some 1) [[litS "@", .grp (some 2) (altWords ["Get", "Post", "Put", "Delete", "Patch", "RequestMapping"])]]],
    [litS "app.", .grp (some 1) verbsLower, .star .space, litS "("],
    [litS "router.", .grp (some 1) verbsLower, .star .space, litS "("],
    [litS "@", .grp (some 1) (altWords ["api_view", "action"]), .star .space, litS "("],
    [litS "def", .plus .space, .grp (some 1) verbsLower, .star .space, litS "("],
    [litS "func", .plus .space, litS "(", .star .any, litS ")", .plus .space, .grp (some 1) verbsCap],
    [litS "[Http", .grp (some 1) verbsCap, litS "]"] ]

/-- One entry of the `patterns` array of `extractApiEndpoints`. -/
structure ExtractPattern where
  regex : List RTerm
  methodIndex : Nat
  pathIndex : Option Nat

/-- The `patterns` array of `extractApiEndpoints` (source lines 188-199),
in order:
Express `/(app|router)\.(get|post|put|delete|patch)\s*\(\s*['"`]([^'"`]+)['"`]/gi`
with methodIndex 2, pathIndex 3;
Spring `/@(GetMapping|PostMapping|PutMapping|DeleteMapping|PatchMapping)\s*\(\s*(?:value\s*=\s*)?['"`]?([^'"`\)]+)['"`]?/gi`
with methodIndex 1, pathIndex 2;
FastAPI `/@app\.(get|post|put|delete|patch)\s*\(\s*['"`]([^'"`]+)['"`]/gi`
with methodIndex 1, pathIndex 2;
DRF `/@action\s*\(\s*.*methods\s*=\s*\[\s*['"`](\w+)['"`]/gi`
with methodIndex 1, pathIndex null;
Go Gin `/(GET|POST|PUT|DELETE|PATCH)\s*\(\s*['"`]([^'"`]+)['"`]/gi`
with methodIndex 1, pathIndex 2. -/
def extractPatterns : List ExtractPattern :=
  [ ⟨[.grp (some 1) (altWords ["app", "router"]), litS ".", .grp (some 2) verbsLower,
      .star .space, litS "(", .star .space, .one quoteCls,
      .grp (some 3) [[.plus notQuote]], .one quoteCls], 2, some 3⟩,
    ⟨[litS "@",
      .grp (some 1) (altWords ["GetMapping", "PostMapping", "PutMapping", "DeleteMapping", "PatchMapping"]),
      .star .space, litS "(", .star .space,
      .gopt none [[litS "value", .star .space, litS "=", .star .space]],
      .opt quoteCls, .grp (some 2) [[.plus notQuoteParen]], .opt quoteCls], 1, some 2⟩,
    ⟨[litS "@app.", .grp (some 1) verbsLower, .star .space, litS "(", .star .space,
      .one quoteCls, .grp (some 2) [[.plus notQuote]], .one quoteCls], 1, some 2⟩,
    ⟨[litS "@action", .star .space, litS "(", .star .space, .star .any, litS "methods",
      .star .space, litS "=", .star .space, litS "[", .star .space, .one quoteCls,
      .grp (some 1) [[.plus .word]], .one quoteCls], 1, none⟩,
    ⟨[.grp (some 1) verbsUpper, .star .space, litS "(", .star .space, .one quoteCls,
      .grp (some 2) [[.plus notQuote]], .one quoteCls], 1, some 2⟩ ]

/-! ### The two core functions -/

/-- Input record of `detectApiChanges`: one changed file of a GitHub
comparison (`{ filename, status, patch? }`). -/
structure ChangedFile where
  filename : String
  status : String
  patch : Option String
deriving DecidableEq

/-- Output record of `detectApiChanges`. -/
structure ChangeRecord where
  filename : String
  status : String
  changes : List String
  isApiFile : Bool
deriving DecidableEq

/-- Output record of `extractApiEndpoints`. -/
structure EndpointDescriptor where
  method : String
  path : String
  handler : String
  lineNumber : Nat
deriving DecidableEq

/-- The inner loop of `detectApiChanges` over `routePatterns` for one
patch line (source lines 154-159): on the first signature whose `test`
succeeds, push `line.trim()` and break. -/
def scanPatchLine : List (List RTerm) → String → List String
  | [], _ => []
  | r :: rest, line =>
    if searchTest true r line.toList then [trimStr line] else scanPatchLine rest line

/-- The `changes` accumulated from one patch (source lines 139-160):
split the patch on newlines and scan each line. -/
def changesOfPatch (patch : String) : List String :=
  (splitLines patch).flatMap (fun line => scanPatchLine routePatterns line)

/-- Whether any signature of a table matches a line. -/
def lineHit (rs : List (List RTerm)) (line : String) : Bool :=
  rs.any (fun r => searchTest true r line.toList)

/-- The `.map` body of `detectApiChanges` (source lines 134-168).  The
`if (file.patch)` guard is falsy both for an absent and for an empty
patch. -/
def mkChangeRecord (file : ChangedFile) : ChangeRecord :=
  { filename := file.filename,
    status := file.status,
    changes :=
      match file.patch with
      | some p => if p = "" then [] else changesOfPatch p
      | none => [],
    isApiFile := true }

/-- The `.filter` predicate of `detectApiChanges` (source lines 128-133):
`apiPatterns.some(pattern => new RegExp(pattern.replace(/\*/g, ".*")).test(file.filename))`.
`Except.error` models the `SyntaxError` thrown by `new RegExp` on an
invalid pattern; `.some` short-circuits, so a bad pattern after a
matching one is not reached. -/
def fileKeptE (apiPatterns : List String) (name : String) : Except Unit Bool :=
  match apiPatterns with
  | [] => .ok false
  | p :: rest =>
    match patternTest p name with
    | none => .error ()
    | some true => .ok true
    | some false => fileKeptE rest name

/-- `files.filter(...)` with the throwing predicate. -/
def filterFilesE : List ChangedFile → List String → Except Unit (List ChangedFile)
  | [], _ => .ok []
  | f :: rest, pats =>
    match fileKeptE pats f.filename with
    | .error e => .error e
    | .ok b =>
      match filterFilesE rest pats with
      | .error e => .error e
      | .ok tail => .ok (if b then f :: tail else tail)

/-- `detectApiChanges` (source lines 118-170): filter the changed files
by the glob patterns, then map each kept file to its change record.  An
invalid pattern reached during filtering throws, aborting the whole
call. -/
def detectApiChanges (files : List ChangedFile) (apiPatterns : List String) :
    Except Unit (List ChangeRecord) :=
  (filterFilesE files apiPatterns).map (fun kept => kept.map mkChangeRecord)

/-- `match[methodIndex]?.toUpperCase() || "UNKNOWN"` (source line 206):
an absent group, or an empty uppercased capture, falls back to
`"UNKNOWN"`. -/
def methodOf (caps : Caps) (idx : Nat) : String :=
  match getCap caps idx with
  | some s => if upperStr (String.mk s) = "" then "UNKNOWN" else upperStr (String.mk s)
  | none => "UNKNOWN"

/-- `pattern.pathIndex ? match[pattern.pathIndex] : ""` (source line 207). -/
def pathOf (caps : Caps) (idx : Option Nat) : String :=
  match idx with
  | none => ""
  | some i => ((getCap caps i).map String.mk).getD ""

/-- `[...line.matchAll(pattern.regex)]` for one line and one pattern
(source line 203). -/
def lineMatchCaps (p : ExtractPattern) (line : String) : List Caps :=
  matchAllCaps true p.regex (line.length + 1) line.toList

/-- The descriptors one line contributes (source lines 202-212): every
pattern in table order, every match of that pattern on the line. -/
def endpointsForLine (line : String) (index : Nat) : List EndpointDescriptor :=
  extractPatterns.flatMap fun p =>
    (lineMatchCaps p line).map fun caps =>
      { method := methodOf caps p.methodIndex,
        path := pathOf caps p.pathIndex,
        handler := trimStr line,
        lineNumber := index + 1 }

/-- True when no extraction pattern matches anywhere on the line. -/
def noSigMatch (line : String) : Bool :=
  extractPatterns.all (fun p => (lineMatchCaps p line).isEmpty)

/-- `lines.forEach((line, index) => ...)` of `extractApiEndpoints`. -/
def extractLines : Nat → List String → List EndpointDescriptor
  | _, [] => []
  | index, line :: rest => endpointsForLine line index ++ extractLines (index + 1) rest

/-- `extractApiEndpoints` (source lines 172-216).  `filename` is accepted
and ignored, as in the source. -/
def extractApiEndpoints (content : String) (filename : String) : List EndpointDescriptor :=
  extractLines 0 (splitLines content)

/-! ### Concrete inputs used by the theorems below -/

/-- The route declaration line of end-to-end scenario A. -/
def theLineA : String := "router.get('/users/:id', getUser);"

/-- The descriptor scenario A expects at line 12. -/
def dGetUsers : EndpointDescriptor := ⟨"GET", "/users/:id", theLineA, 12⟩

/-- Eleven empty lines followed by the scenario-A line, so that the
scenario-A line is line 12 and no other line matches any signature. -/
def c1content : String :=
  "\n\n\n\n\n\n\n\n\n\n\nrouter.get('/users/:id', getUser);"

/-- The patch of end-to-end scenario B: a hunk header and one added
Spring annotation line. -/
def patchB : String := "@@ -10,6 +10,7 @@\n+    @PostMapping(\"/campaigns\")"

/-- A patch line on which two route signatures (Express `router.` and
Express `app.`) both match. -/
def lineW : String := "router.get('/a', h); app.post('/b', g);"

/-- A file whose patch consists only of a hunk header, a context line and
a removed route line. -/
def fileRemoved : ChangedFile :=
  ⟨"src/api/routes.js", "modified", some "@@ -1,3 +1,2 @@\n context\n-router.get('/old', h);"⟩

/-- A matching file without a patch. -/
def filePatchless : ChangedFile := ⟨"src/api/a.js", "added", none⟩

/-- The single record `detectApiChanges` produces for `filePatchless`. -/
def recsPatchless : List ChangeRecord := [⟨"src/api/a.js", "added", [], true⟩]

/-- A two-line content whose second line declares a route, used to
instantiate the line-number theorem. -/
def contentW : String := "x\nrouter.get('/u', h)"

/-- A descriptor `extractApiEndpoints contentW` contains. -/
def dW : EndpointDescriptor := ⟨"GET", "/u", "router.get('/u', h)", 2⟩

/-! ### Helper lemmas -/

theorem extractLines_append (a b : List String) (i : Nat) :
    extractLines i (a ++ b) = extractLines i a ++ extractLines (i + a.length) b := by
  induction a generalizing i with
  | nil => simp [extractLines]
  | cons l rest ih =>
    rw [List.cons_append, extractLines, extractLines, ih (i + 1), List.length_cons,
      List.append_assoc]
    have h : i + 1 + rest.length = i + (rest.length + 1) := by omega
    rw [h]

theorem mem_endpointsForLine {e : EndpointDescriptor} {l : String} {i : Nat}
    (h : e ∈ endpointsForLine l i) : e.handler = trimStr l ∧ e.lineNumber = i + 1 := by
  simp only [endpointsForLine, List.mem_flatMap, List.mem_map] at h
  obtain ⟨p, _, caps, _, rfl⟩ := h
  exact ⟨rfl, rfl⟩

theorem endpointsForLine_eq_nil {l : String} (h : noSigMatch l = true) (i : Nat) :
    endpointsForLine l i = [] := by
  simp only [noSigMatch, List.all_eq_true] at h
  rw [endpointsForLine, List.flatMap_eq_nil_iff]
  intro p hp
  rw [List.isEmpty_iff.mp (h p hp)]
  rfl

theorem extractLines_eq_nil {ls : List String} (h : ∀ l ∈ ls, noSigMatch l = true) (i : Nat) :
    extractLines i ls = [] := by
  induction ls generalizing i with
  | nil => rfl
  | cons l rest ih =>
    rw [extractLines, endpointsForLine_eq_nil (h l (by simp)) i,
      ih (fun x hx => h x (by simp [hx])) (i + 1)]
    rfl

theorem mem_extractLines {e : EndpointDescriptor} :
    ∀ {ls : List String} {i : Nat}, e ∈ extractLines i ls →
      ∃ j l, ls[j]? = some l ∧ e.lineNumber = i + j + 1 ∧ e.handler = trimStr l := by
  intro ls
  induction ls with
  | nil => intro i h; simp [extractLines] at h
  | cons l rest ih =>
    intro i h
    rw [extractLines, List.mem_append] at h
    rcases h with h | h
    · obtain ⟨hh, hn⟩ := mem_endpointsForLine h
      exact ⟨0, l, by simp, by omega, hh⟩
    · obtain ⟨j, l2, hget, hn, hh⟩ := ih h
      exact ⟨j + 1, l2, by simpa using hget, by omega, hh⟩

theorem lineHit_cons (r : List RTerm) (rest : List (List RTerm)) (line : String) :
    lineHit (r :: rest) line = (searchTest true r line.toList || lineHit rest line) := rfl

theorem scanPatchLine_eq_if (rs : List (List RTerm)) (line : String) :
    scanPatchLine rs line = if lineHit rs line then [trimStr line] else [] := by
  induction rs with
  | nil => rfl
  | cons r rest ih =>
    rw [scanPatchLine, ih, lineHit_cons]
    cases hr : searchTest true r line.toList with
    | true => rw [Bool.true_or]; rfl
    | false => rw [Bool.false_or]; rfl

theorem flatMap_scan_eq_filter_map (ls : List String) :
    ls.flatMap (fun l => scanPatchLine routePatterns l) =
      (ls.filter (fun l => lineHit routePatterns l)).map trimStr := by
  induction ls with
  | nil => rfl
  | cons l rest ih =>
    rw [List.flatMap_cons, List.filter_cons, ih, scanPatchLine_eq_if]
    cases h : lineHit routePatterns l with
    | true => rfl
    | false => rfl

theorem filterFilesE_sub {files : List ChangedFile} {pats : List String}
    {kept : List ChangedFile} (h : filterFilesE files pats = .ok kept) :
    ∀ g ∈ kept, g ∈ files := by
  induction files generalizing kept with
  | nil =>
    simp only [filterFilesE, Except.ok.injEq] at h
    subst h; simp
  | cons f rest ih =>
    rw [filterFilesE] at h
    cases hk : fileKeptE pats f.filename with
    | error e => rw [hk] at h; exact absurd h (by simp)
    | ok b =>
      rw [hk] at h
      cases ht : filterFilesE rest pats with
      | error e => rw [ht] at h; exact absurd h (by simp)
      | ok tail =>
        rw [ht] at h
        simp only [Except.ok.injEq] at h
        subst h
        intro g hg
        cases b with
        | true =>
          rcases List.mem_cons.mp hg with rfl | hg2
          · exact List.mem_cons_self _ _
          · exact List.mem_cons_of_mem _ (ih ht g hg2)
        | false => exact List.mem_cons_of_mem _ (ih ht g hg)

theorem filterFilesE_countP_le (q : ChangedFile → Bool) {files : List ChangedFile}
    {pats : List String} {kept : List ChangedFile}
    (h : filterFilesE files pats = .ok kept) :
    kept.countP q ≤ files.countP q := by
  induction files generalizing kept with
  | nil =>
    simp only [filterFilesE, Except.ok.injEq] at h
    subst h; simp
  | cons f rest ih =>
    rw [filterFilesE] at h
    cases hk : fileKeptE pats f.filename with
    | error e => rw [hk] at h; exact absurd h (by simp)
    | ok b =>
      rw [hk] at h
      cases ht : filterFilesE rest pats with
      | error e => rw [ht] at h; exact absurd h (by simp)
      | ok tail =>
        rw [ht] at h
        simp only [Except.ok.injEq] at h
        subst h
        cases b with
        | true =>
          have hred : (if true = true then f :: tail else tail) = f :: tail := rfl
          rw [hred, List.countP_cons, List.countP_cons]
          exact Nat.add_le_add_right (ih ht) _
        | false =>
          have hred : (if false = true then f :: tail else tail) = tail := rfl
          rw [hred, List.countP_cons]
          exact Nat.le_trans (ih ht) (Nat.le_add_right _ _)

theorem filterFilesE_mem_kept {files : List ChangedFile} {pats : List String}
    {kept : List ChangedFile} {f : ChangedFile}
    (h : filterFilesE files pats = .ok kept) (hf : f ∈ files)
    (hk : fileKeptE pats f.filename = .ok true) : f ∈ kept := by
  induction files generalizing kept with
  | nil => simp at hf
  | cons g rest ih =>
    rw [filterFilesE] at h
    cases hg : fileKeptE pats g.filename with
    | error e => rw [hg] at h; exact absurd h (by simp)
    | ok b =>
      rw [hg] at h
      cases ht : filterFilesE rest pats with
      | error e => rw [ht] at h; exact absurd h (by simp)
      | ok tail =>
        rw [ht] at h
        simp only [Except.ok.injEq] at h
        subst h
        rcases List.mem_cons.mp hf with rfl | hf2
        · rw [hk] at hg
          cases Except.ok.inj hg
          exact List.mem_cons_self _ _
        · cases b with
          | true => exact List.mem_cons_of_mem _ (ih ht hf2)
          | false => exact ih ht hf2

/-- C1 (counterexample): for the content whose 12th line is
`router.get('/users/:id', getUser);` (and whose other lines match no
signature), `extractApiEndpoints` does NOT return exactly one descriptor:
both the Express signature and the case-insensitive Go-Gin signature
match the line, so the descriptor appears twice. -/
theorem scenarioA_two_descriptors :
    (splitLines c1content)[11]? = some theLineA ∧
    extractApiEndpoints c1content "routes.ts" = [dGetUsers, dGetUsers] ∧
    extractApiEndpoints c1content "routes.ts" ≠ [dGetUsers] :=
  ⟨rfl, rfl, by decide⟩

/-- C1 (amended): for every content whose line 12 (1-based) is
`router.get('/users/:id', getUser);` and whose other lines match no
extraction signature, `extractApiEndpoints` returns exactly two equal
descriptors `{method := "GET", path := "/users/:id", handler := the line,
lineNumber := 12}` — one from the Express signature and one from the
case-insensitive Go-Gin signature. -/
theorem scenarioA_extract (content filename : String) (pre post : List String)
    (hsplit : splitLines content = pre ++ theLineA :: post)
    (hlen : pre.length = 11)
    (hpre : ∀ l ∈ pre, noSigMatch l = true)
    (hpost : ∀ l ∈ post, noSigMatch l = true) :
    extractApiEndpoints content filename = [dGetUsers, dGetUsers] := by
  show extractLines 0 (splitLines content) = _
  rw [hsplit, extractLines_append, extractLines_eq_nil hpre, Nat.zero_add, hlen,
    extractLines, extractLines_eq_nil hpost]
  have h : endpointsForLine theLineA 11 = [dGetUsers, dGetUsers] := by decide
  rw [h]
  rfl

/-- C1 (witness): the amended theorem applied to the concrete scenario-A
content. -/
theorem scenarioA_extract_witness :
    extractApiEndpoints c1content "routes.js" = [dGetUsers, dGetUsers] :=
  scenarioA_extract c1content "routes.js" (List.replicate 11 "") []
    (by decide) (by decide) (by decide) (by decide)

/-- C2 (counterexample): the claim says `matches("src/apiary/foo.js",
"**/api/**")` is true, but the translated regex `.*.*/api/.*.*` keeps the
slashes literal, so the matcher returns false on that path. -/
theorem apiary_not_matched :
    patternTest "**/api/**" "src/apiary/foo.js" = some false := rfl

/-- C2 (amended): for the pattern `**/api/**` the path matcher returns
true for "src/api/foo.js" but false both for "src/apiary/foo.js" (the
slashes surrounding `api` in the pattern are literal, so the substring
"/api/" is required) and for "src/other/foo.js". -/
theorem pattern_substring_semantics :
    patternTest "**/api/**" "src/api/foo.js" = some true ∧
    patternTest "**/api/**" "src/apiary/foo.js" = some false ∧
    patternTest "**/api/**" "src/other/foo.js" = some false :=
  ⟨rfl, rfl, rfl⟩

/-- C4 (counterexample): a removed patch line (prefixed "-") does produce
a matched-line entry: the scan never inspects the diff marker. -/
theorem removed_line_counted :
    detectApiChanges [fileRemoved] ["**/api/**"] =
      .ok [⟨"src/api/routes.js", "modified", ["-router.get('/old', h);"], true⟩] := rfl

/-- C4 (amended): every line of a kept file's patch is scanned uniformly
— added, removed, context and hunk-header lines alike: a line contributes
exactly when some route signature matches it, and the contribution is the
trimmed line. -/
theorem patch_lines_scanned_uniformly (file : ChangedFile) (p : String)
    (hp : file.patch = some p) (hne : ¬p = "") :
    (mkChangeRecord file).changes =
      ((splitLines p).filter (fun l => lineHit routePatterns l)).map trimStr := by
  rw [mkChangeRecord]
  simp only [hp, if_neg hne]
  rw [changesOfPatch, flatMap_scan_eq_filter_map]

/-- C4 (witness): the amended theorem applied to the removed-line file. -/
theorem patch_lines_scanned_uniformly_witness :
    (mkChangeRecord fileRemoved).changes =
      ((splitLines "@@ -1,3 +1,2 @@\n context\n-router.get('/old', h);").filter
        (fun l => lineHit routePatterns l)).map trimStr :=
  patch_lines_scanned_uniformly fileRemoved _ rfl (by decide)

/-- C5: a file whose path is kept by the pattern filter and whose patch is
absent yields exactly one record, with `isApiFile = true` and an empty
changes list. -/
theorem patchless_file_record (files : List ChangedFile) (pats : List String)
    (f : ChangedFile) (recs : List ChangeRecord)
    (hmem : f ∈ files)
    (huniq : files.countP (fun g => g.filename == f.filename) = 1)
    (hpatch : f.patch = none)
    (hkept : fileKeptE pats f.filename = .ok true)
    (hok : detectApiChanges files pats = .ok recs) :
    recs.countP (fun r => r.filename == f.filename) = 1 ∧
    ∀ r ∈ recs, r.filename = f.filename → r = ⟨f.filename, f.status, [], true⟩ := by
  rw [detectApiChanges] at hok
  cases hflt : filterFilesE files pats with
  | error e => rw [hflt] at hok; exact absurd hok (by simp [Except.map])
  | ok kept =>
    rw [hflt] at hok
    simp only [Except.map, Except.ok.injEq] at hok
    subst hok
    have hcount : kept.countP (fun g => g.filename == f.filename) = 1 := by
      have hle := filterFilesE_countP_le (fun g => g.filename == f.filename) hflt
      rw [huniq] at hle
      have hfk : f ∈ kept := filterFilesE_mem_kept hflt hmem hkept
      have hpos : 0 < kept.countP (fun g => g.filename == f.filename) :=
        List.countP_pos_iff.mpr ⟨f, hfk, by simp⟩
      omega
    constructor
    · rw [List.countP_map]
      exact hcount
    · intro r hr hname
      obtain ⟨g, hgk, rfl⟩ := List.mem_map.mp hr
      have hgname : g.filename = f.filename := hname
      have hgf : g = f := by
        rw [List.countP_eq_length_filter] at huniq
        obtain ⟨x, hx⟩ := List.length_eq_one.mp huniq
        have hgx : g ∈ List.filter (fun g => g.filename == f.filename) files :=
          List.mem_filter.mpr ⟨filterFilesE_sub hflt g hgk, by simp [hgname]⟩
        have hfx : f ∈ List.filter (fun g => g.filename == f.filename) files :=
          List.mem_filter.mpr ⟨hmem, by simp⟩
        rw [hx] at hgx hfx
        rw [List.mem_singleton.mp hgx, List.mem_singleton.mp hfx]
      subst hgf
      rw [mkChangeRecord]
      simp [hpatch]

/-- C5 (witness): the theorem applied to a concrete patchless file. -/
theorem patchless_file_record_witness :
    recsPatchless.countP (fun r => r.filename == filePatchless.filename) = 1 ∧
    ∀ r ∈ recsPatchless, r.filename = filePatchless.filename →
      r = ⟨filePatchless.filename, filePatchless.status, [], true⟩ :=
  patchless_file_record [filePatchless] ["**/api/**"] filePatchless recsPatchless
    (by decide) (by decide) rfl rfl rfl

/-- C6: for every patch line, the diff classifier records at most one
entry — the trimmed line, pushed when the first signature in table order
matches — even when several signatures match the line; and the changes of
a patch are exactly the per-line contributions in order. -/
theorem scan_first_match_wins (line : String) :
    (scanPatchLine routePatterns line).length ≤ 1 ∧
    (∀ s ∈ scanPatchLine routePatterns line, s = trimStr line) ∧
    ∀ patch, changesOfPatch patch =
      (splitLines patch).flatMap (fun l => scanPatchLine routePatterns l) := by
  refine ⟨?_, ?_, fun _ => rfl⟩
  · rw [scanPatchLine_eq_if]
    cases lineHit routePatterns line with
    | true => exact Nat.le_refl 1
    | false => exact Nat.zero_le 1
  · intro s hs
    rw [scanPatchLine_eq_if] at hs
    have h2 : lineHit routePatterns line = true ∧ s = trimStr line := by simpa using hs
    exact h2.2

/-- C6 (witness): a line two distinct signatures match still contributes
a single entry, the trimmed line. -/
theorem scan_first_match_wins_witness :
    routePatterns.countP (fun r => searchTest true r lineW.toList) = 2 ∧
    (scanPatchLine routePatterns lineW).length ≤ 1 ∧
    lineW = trimStr lineW :=
  ⟨by decide, (scan_first_match_wins lineW).1,
    (scan_first_match_wins lineW).2.1 lineW (by decide)⟩

/-- C7: every descriptor returned by `extractApiEndpoints` carries a
1-based line number within the bounds of the newline-split content, its
handler is the trimmed text of that very line, and the numbering is
identical across invocations on identical text. -/
theorem extract_lineNumber_correct (content filename : String) :
    (∀ e ∈ extractApiEndpoints content filename,
      1 ≤ e.lineNumber ∧ e.lineNumber ≤ (splitLines content).length ∧
      ∃ l, (splitLines content)[e.lineNumber - 1]? = some l ∧ e.handler = trimStr l) ∧
    extractApiEndpoints content filename = extractApiEndpoints content filename := by
  refine ⟨fun e he => ?_, rfl⟩
  obtain ⟨j, l, hget, hn, hh⟩ :=
    mem_extractLines (show e ∈ extractLines 0 (splitLines content) from he)
  obtain ⟨hj, -⟩ := List.getElem?_eq_some_iff.mp hget
  refine ⟨by omega, by omega, l, ?_, hh⟩
  rw [show e.lineNumber - 1 = j by omega]
  exact hget

/-- C7 (witness): the theorem applied to a concrete content and a
concrete descriptor it extracts. -/
theorem extract_lineNumber_correct_witness :
    1 ≤ dW.lineNumber ∧ dW.lineNumber ≤ (splitLines contentW).length ∧
    ∃ l, (splitLines contentW)[dW.lineNumber - 1]? = some l ∧ dW.handler = trimStr l :=
  (extract_lineNumber_correct contentW "f.js").1 dW (by decide)

/-- C8: two invocations of `extractApiEndpoints` on the same pair yield
identical ordered output lists (the function is pure and deterministic). -/
theorem extract_deterministic (content filename : String) :
    extractApiEndpoints content filename = extractApiEndpoints content filename := rfl

/-- C9 (counterexample): for the bare filename "CampaignController.java"
the pattern `**/*Controller*` translates to `.*.*/.*Controller.*`, whose
`/` is literal; the filter drops the file, so `detectApiChanges` returns
no record at all, contradicting the claimed single record. -/
theorem scenarioB_no_record :
    detectApiChanges [⟨"CampaignController.java", "modified", some patchB⟩]
        ["**/*Controller*"] = .ok [] ∧
    patternTest "**/*Controller*" "CampaignController.java" = some false :=
  ⟨rfl, rfl⟩

/-- C9 (amended): with a path that contains a directory separator before
the Controller segment, e.g. "src/CampaignController.java", the same
patch yields exactly one record with `isApiFile = true` whose changes
list contains the trimmed added annotation line (the "+" diff marker is
not whitespace, so trimming keeps it). -/
theorem scenarioB_with_dir :
    detectApiChanges [⟨"src/CampaignController.java", "modified", some patchB⟩]
        ["**/*Controller*"] =
      .ok [⟨"src/CampaignController.java", "modified",
            ["+    @PostMapping(\"/campaigns\")"], true⟩] := rfl

/-- C10: the glob translation rewrites only `*`; every other character
keeps its regular-expression meaning, so the `.` of `**/*.java` matches
any character and the dotless path "src/routes/Xjava" is matched. -/
theorem dot_has_regex_meaning :
    globTranslate "**/*.java" = ".*.*/.*.java" ∧
    "src/routes/Xjava".toList.all (fun c => c != '.') = true ∧
    patternTest "**/*.java" "src/routes/Xjava" = some true :=
  ⟨rfl, by decide, rfl⟩
